import Mathlib

/-!
Verification development for the cdd compiler (a C-subset to x86-64 compiler).

The definitions below are a shallow embedding of the relevant C++ sources:
  src/semantic/include/Type.h, src/semantic/src/Type.cpp (semantic types,
  compatibility, common-type computation),
  src/semantic/src/SemanticAnalyzer.cpp (struct layout),
  src/semantic/src/SymbolTable.cpp (tag map),
  src/semantic/src/IRGenerator.cpp (call and switch lowering),
  src/codegen/src/CodeGenerator.cpp (float constant pool),
  src/preprocessor/src/Preprocessor.cpp (include search, macro expansion),
  src/scanner/src/Lexer.cpp (token scanning).

Modelling conventions: C++ std::shared_ptr values are modelled by plain
inductive values (a TypePtr that may be null becomes an Option); std::vector
and std::unordered_map become lists and association lists; C++ `int` values
that are provably nonnegative in every reachable state are still modelled as
Int, with truncating division (Int.tdiv) used where C++ `/` appears; C++
`double` is modelled by its IEEE-754 bit pattern (a Nat below 2 to the 64)
because the program only stores, hashes and compares doubles for equality.
-/

namespace Cdd

/-! ## Semantic types: Type.h -/

/-- IntegerKind from Type.h: Char, Short, Int, Long, LongLong. -/
inductive IntegerKind where
  | char
  | short
  | int
  | long
  | longlong
deriving DecidableEq, Repr, Fintype

/-- Numeric value of the C++ enum constant, used for the enum comparisons
`<`, `>`, `>=` and `std::max` on IntegerKind in Type.cpp. -/
def IntegerKind.rank : IntegerKind → Nat
  | .char => 0
  | .short => 1
  | .int => 2
  | .long => 3
  | .longlong => 4

/-- FloatKind from Type.h: Float, Double, LongDouble. -/
inductive FloatKind where
  | float
  | double
  | longDouble
deriving DecidableEq, Repr, Fintype

/-- Numeric value of the C++ enum constant FloatKind. -/
def FloatKind.rank : FloatKind → Nat
  | .float => 0
  | .double => 1
  | .longDouble => 2

mutual
/-- The semantic type hierarchy of Type.h (VoidType, IntegerType, FloatType,
PointerType, ArrayType, FunctionType, StructType, UnionType, EnumType).
Qualifier flags (isConst, isVolatile) play no part in any claim and carry no
behavior in the functions embedded here, so they are omitted from the value;
the top-level `isUnsigned` flag of Type is meaningful only for IntegerType
and is carried there.  Struct and union members (name, type, offset) and the
completeness flag are carried as in the source; ArrayType.length is the C++
int field (negative means incomplete). -/
inductive Ty where
  | void
  | integer (intKind : IntegerKind) (isUnsigned : Bool)
  | float (floatKind : FloatKind)
  | pointer (pointee : Ty)
  | array (elementType : Ty) (length : Int)
  | func (returnType : Ty) (paramTypes : TyList) (isVariadic : Bool)
  | structT (name : String) (members : MemberList) (isComplete : Bool)
  | unionT (name : String) (members : MemberList) (isComplete : Bool)
  | enumT (name : String) (enumerators : List (String × Int))
deriving DecidableEq, Repr

/-- std::vector of TypePtr (FunctionType.paramTypes). -/
inductive TyList where
  | nil
  | cons (head : Ty) (tail : TyList)
deriving DecidableEq, Repr

/-- std::vector of Member, where Member = { name, type, offset } as in
Type.h. -/
inductive MemberList where
  | nil
  | cons (name : String) (type : Ty) (offset : Int) (tail : MemberList)
deriving DecidableEq, Repr
end

def TyList.length : TyList → Nat
  | .nil => 0
  | .cons _ tl => tl.length + 1

/-- Type::isVoid from Type.h. -/
def Ty.isVoid : Ty → Bool
  | .void => true
  | _ => false

/-- Type::isInteger from Type.h.  Note the source counts Enum types as
integer: `kind == TypeKind::Integer || kind == TypeKind::Enum`. -/
def Ty.isInteger : Ty → Bool
  | .integer _ _ => true
  | .enumT _ _ => true
  | _ => false

/-- Type::isFloat from Type.h. -/
def Ty.isFloat : Ty → Bool
  | .float _ => true
  | _ => false

/-- Type::isPointer from Type.h. -/
def Ty.isPointer : Ty → Bool
  | .pointer _ => true
  | _ => false

/-- Type::isEnum from Type.h. -/
def Ty.isEnum : Ty → Bool
  | .enumT _ _ => true
  | _ => false

/-- IntegerType::size from Type.h (LP64). -/
def IntegerKind.size : IntegerKind → Int
  | .char => 1
  | .short => 2
  | .int => 4
  | .long => 8
  | .longlong => 8

/-- FloatType::size from Type.h. -/
def FloatKind.size : FloatKind → Int
  | .float => 4
  | .double => 8
  | .longDouble => 16

/-- The C++ rounding idiom `(s + align - 1) / align * align` used by
StructType::size and by the struct layout loop of SemanticAnalyzer.cpp.
C++ integer division truncates toward zero, hence Int.tdiv. -/
def cppRoundUp (s align : Int) : Int :=
  (s + align - 1).tdiv align * align

/-- members.empty() on the member vector. -/
def MemberList.isEmptyM : MemberList → Bool
  | .nil => true
  | .cons _ _ _ _ => false

mutual
/-- Type::size as implemented by each subclass in Type.h.  The struct case
is StructType::size: zero when incomplete or memberless, otherwise the end
of the last member rounded up to the struct alignment; the union case is
UnionType::size: the maximum member size, not rounded. -/
def Ty.size : Ty → Int
  | .void => 0
  | .integer k _ => k.size
  | .float fk => fk.size
  | .pointer _ => 8
  | .array elem len => if len < 0 then 0 else elem.size * len
  | .func _ _ _ => 0
  | .structT _ ms complete =>
      if !complete || ms.isEmptyM then 0
      else cppRoundUp ms.lastEnd (MemberList.maxAlign ms)
  | .unionT _ ms _ => MemberList.maxSize ms
  | .enumT _ _ => 4

/-- Type::alignment as implemented by each subclass in Type.h.  Struct and
union alignment is the maximum member alignment starting from 1. -/
def Ty.alignment : Ty → Int
  | .void => 1
  | .integer k _ => k.size
  | .float fk => fk.size
  | .pointer _ => 8
  | .array elem _ => elem.alignment
  | .func _ _ _ => 1
  | .structT _ ms _ => MemberList.maxAlign ms
  | .unionT _ ms _ => MemberList.maxAlign ms
  | .enumT _ _ => 4

/-- The `maxAlign` accumulation loop shared by StructType::alignment and
UnionType::alignment: `maxAlign = max(maxAlign, m.type->alignment())`
starting from 1. -/
def MemberList.maxAlign : MemberList → Int
  | .nil => 1
  | .cons _ t _ rest => max (MemberList.maxAlign rest) t.alignment

/-- The `maxSize` accumulation loop of UnionType::size starting from 0. -/
def MemberList.maxSize : MemberList → Int
  | .nil => 0
  | .cons _ t _ rest => max (MemberList.maxSize rest) t.size

/-- `members.back().offset + members.back().type->size()` from
StructType::size (0 for an empty list, unused in that case). -/
def MemberList.lastEnd : MemberList → Int
  | .nil => 0
  | .cons _ t off .nil => off + t.size
  | .cons _ _ _ (.cons n t off rest) => MemberList.lastEnd (.cons n t off rest)
end

mutual
/-- areTypesCompatible from Type.cpp.  The source first rejects mismatched
kinds, then dispatches on the kind; a null TypePtr is rejected before that,
so this embedding takes the two non-null types.  Pointer: void pointee on
either side is compatible with anything; Array: compatible elements, and a
negative (incomplete) length matches any length; Function: compatible
return, equal arity, equal variadic flag, pairwise compatible parameters;
Struct, Union, Enum: tag-name equality. -/
def areTypesCompatible : Ty → Ty → Bool
  | .void, .void => true
  | .integer k1 u1, .integer k2 u2 => k1 == k2 && u1 == u2
  | .float f1, .float f2 => f1 == f2
  | .pointer p1, .pointer p2 =>
      if p1.isVoid || p2.isVoid then true else areTypesCompatible p1 p2
  | .array e1 l1, .array e2 l2 =>
      if !areTypesCompatible e1 e2 then false
      else if l1 < 0 || l2 < 0 then true
      else l1 == l2
  | .func r1 ps1 v1, .func r2 ps2 v2 =>
      if !areTypesCompatible r1 r2 then false
      else if ps1.length != ps2.length then false
      else if v1 != v2 then false
      else compatParams ps1 ps2
  | .structT n1 _ _, .structT n2 _ _ => n1 == n2
  | .unionT n1 _ _, .unionT n2 _ _ => n1 == n2
  | .enumT n1 _, .enumT n2 _ => n1 == n2
  | _, _ => false

/-- The parameter loop of the Function case of areTypesCompatible (the
lists have equal length when the loop runs; unequal lengths cannot occur
but are mapped to false). -/
def compatParams : TyList → TyList → Bool
  | .nil, .nil => true
  | .cons h1 t1, .cons h2 t2 =>
      if !areTypesCompatible h1 h2 then false else compatParams t1 t2
  | _, _ => false
end

/-- makeInt() from Type.h: IntegerType(Int, unsigned = false). -/
def makeInt : Ty := .integer .int false

/-- getCommonType from Type.cpp.  A null result (nullptr) is none.  Check
order follows the source: compatible types return the first type; floats
win next (larger FloatKind by enum value); then the integer-promotion
branch; then the enum branches; then pointer arithmetic.

The integer branch is guarded in the source by `isInteger()`, which is also
true of Enum types; an enum operand reaching that branch is static_cast to
IntegerType*, an invalid downcast whose reads are undefined behavior.  The
embedding keeps only the defined behavior: the promotion branch applies to
genuine IntegerTypes and enum operands fall through to the subsequent
branches of the source.  In those branches `isInteger()` again counts enums,
so (enum, enum) with distinct names returns the second operand. -/
def getCommonType (t1 t2 : Ty) : Option Ty :=
  if areTypesCompatible t1 t2 then some t1
  else if t1.isFloat || t2.isFloat then
    match t1, t2 with
    | .float f1, .float f2 =>
        if f2.rank ≤ f1.rank then some (.float f1) else some (.float f2)
    | .float f1, _ => some (.float f1)
    | _, .float f2 => some (.float f2)
    | _, _ => none
  else
    match t1, t2 with
    | .integer k1 u1, .integer k2 u2 =>
        let resultKind := if k1.rank ≤ k2.rank then k2 else k1
        let resultKind := if resultKind.rank < IntegerKind.int.rank then .int else resultKind
        let resultUnsigned :=
          if k1 == k2 then u1 || u2
          else if k2.rank < k1.rank then u1
          else u2
        some (.integer resultKind resultUnsigned)
    | _, _ =>
        if t1.isEnum && t2.isInteger then some t2
        else if t1.isInteger && t2.isEnum then some t1
        else if t1.isEnum && t2.isEnum then some makeInt
        else if (t1.isPointer && t2.isInteger) || (t1.isInteger && t2.isPointer) then
          if t1.isPointer then some t1 else some t2
        else none

/-! ## Struct layout: SemanticAnalyzer::analyzeRecordDecl -/

/-- A struct field after resolveAstType succeeded (fields whose type fails
to resolve are skipped by a continue in the source and carry no layout
effect).  An anonymous member has the empty name. -/
structure FieldDecl where
  name : String
  type : Ty
deriving DecidableEq, Repr

/-- StructType::findMember (here only its null test is needed). -/
def MemberList.hasMember : MemberList → String → Bool
  | .nil, _ => false
  | .cons n _ _ rest, target => n == target || rest.hasMember target

/-- push_back on the member vector. -/
def MemberList.push : MemberList → String → Ty → Int → MemberList
  | .nil, n, t, off => .cons n t off .nil
  | .cons n0 t0 o0 rest, n, t, off => .cons n0 t0 o0 (rest.push n t off)

/-- The inner loop of analyzeRecordDecl promoting the members of an
anonymous struct member: duplicates are skipped, otherwise the running
offset is rounded up to the member alignment, the member is pushed at that
offset and the offset advances by the member size. -/
def layoutAnonStruct (acc : MemberList) (offset : Int) : MemberList → MemberList × Int
  | .nil => (acc, offset)
  | .cons n t _ rest =>
      if acc.hasMember n then layoutAnonStruct acc offset rest
      else
        let align := t.alignment
        let off := cppRoundUp offset align
        layoutAnonStruct (acc.push n t off) (off + t.size) rest

/-- The inner loop of analyzeRecordDecl promoting the members of an
anonymous union member: non-duplicate members are pushed at the current
offset unrounded and unadvanced; afterwards the offset advances once by the
maximum size of all the anonymous members of the union. -/
def layoutAnonUnionPush (acc : MemberList) (offset : Int) : MemberList → MemberList
  | .nil => acc
  | .cons n t _ rest =>
      if acc.hasMember n then layoutAnonUnionPush acc offset rest
      else layoutAnonUnionPush (acc.push n t offset) offset rest

/-- The struct branch of SemanticAnalyzer::analyzeRecordDecl: the field
loop over declaration order.  Anonymous struct and union members are
promoted as above; an ordinary field with a fresh name is pushed at the
running offset rounded up to its alignment, and the offset advances by its
size; duplicate names are skipped. -/
def layoutFields (acc : MemberList) (offset : Int) : List FieldDecl → MemberList × Int
  | [] => (acc, offset)
  | f :: rest =>
      if f.name == "" && (match f.type with | .structT _ _ _ => true | .unionT _ _ _ => true | _ => false) then
        match f.type with
        | .structT _ anonMs _ =>
            let (acc2, off2) := layoutAnonStruct acc offset anonMs
            layoutFields acc2 off2 rest
        | .unionT _ anonMs _ =>
            let acc2 := layoutAnonUnionPush acc offset anonMs
            layoutFields acc2 (offset + MemberList.maxSize anonMs) rest
        | _ => layoutFields acc offset rest
      else
        if acc.hasMember f.name then layoutFields acc offset rest
        else
          let align := f.type.alignment
          let off := cppRoundUp offset align
          layoutFields (acc.push f.name f.type off) (off + f.type.size) rest

/-- The struct result built by analyzeRecordDecl: members from the layout
loop starting at offset 0, and isComplete = !decl->fields.empty(). -/
def analyzeStructLayout (tagName : String) (fields : List FieldDecl) : Ty :=
  .structT tagName (layoutFields .nil 0 fields).1 (!fields.isEmpty)

/-- The member offsets in declaration order. -/
def MemberList.offsets : MemberList → List Int
  | .nil => []
  | .cons _ _ off rest => off :: rest.offsets

/-! ## Quadruple IR: IRGenerator.h -/

/-- IROpcode from IRGenerator.h (the full enumeration). -/
inductive IROpcode where
  | Add | Sub | Mul | Div | Mod | Neg
  | FAdd | FSub | FMul | FDiv | FNeg
  | BitAnd | BitOr | BitXor | BitNot | Shl | Shr
  | Eq | Ne | Lt | Le | Gt | Ge
  | FEq | FNe | FLt | FLe | FGt | FGe
  | LogicalAnd | LogicalOr | LogicalNot
  | Assign | Load | Store | LoadAddr
  | IndexAddr | MemberAddr
  | Label | Jump | JumpTrue | JumpFalse
  | Param | Call | Return
  | IntToFloat | FloatToInt
  | IntExtend | IntTrunc | PtrToInt | IntToPtr
  | Switch | Case
  | Nop | Comment
deriving DecidableEq, Repr

/-- OperandKind from IRGenerator.h. -/
inductive OperandKind where
  | None | Temp | Variable | IntConst | FloatConst | StringConst | Label | Global
deriving DecidableEq, Repr

/-- Operand from IRGenerator.h: a kind tag plus the name / intValue /
floatValue / type payload fields (unused payload fields keep their
default-initialized values, as in the C++ struct).  The C++ double
floatValue is carried as its IEEE-754 bit pattern. -/
structure Operand where
  kind : OperandKind
  name : String
  intValue : Int
  floatBits : Nat
  type : Option Ty
deriving DecidableEq, Repr

/-- Operand::none(). -/
def Operand.noneOp : Operand := ⟨.None, "", 0, 0, none⟩

/-- Operand::temp(name, type). -/
def Operand.temp (name : String) (type : Ty) : Operand := ⟨.Temp, name, 0, 0, some type⟩

/-- Operand::intConst(value, type = nullptr). -/
def Operand.intConst (value : Int) (type : Option Ty := none) : Operand :=
  ⟨.IntConst, "", value, 0, type⟩

/-- Operand::label(name). -/
def Operand.labelOp (name : String) : Operand := ⟨.Label, name, 0, 0, none⟩

/-- Quadruple from IRGenerator.h: opcode, result, arg1, arg2. -/
structure Quadruple where
  opcode : IROpcode
  result : Operand
  arg1 : Operand
  arg2 : Operand
deriving DecidableEq, Repr

/-- IRGenerator::emit builds Quadruple(op, result, arg1, arg2) with
Operand::none() defaults. -/
def mkQuad (op : IROpcode) (result : Operand := Operand.noneOp)
    (arg1 : Operand := Operand.noneOp) (arg2 : Operand := Operand.noneOp) : Quadruple :=
  ⟨op, result, arg1, arg2⟩

/-! ## Call lowering: IRGenerator::genCallExpr -/

/-- The Param emission loop of genCallExpr.  The source iterates the
evaluated argument operands with rbegin()..rend() (its comment reads
reverse argument passing, cdecl convention), emitting
`emit(IROpcode::Param, Operand::none(), *it)` for each: the last source
argument is emitted first. -/
def genCallParamQuads : List Operand → List Quadruple
  | [] => []
  | a :: rest => genCallParamQuads rest ++ [mkQuad .Param Operand.noneOp a]

/-- The quadruples appended by genCallExpr after the argument expressions
themselves have been evaluated (args holds the evaluated argument operands
in source order), together with the call result operand.  The result is a
fresh temp unless the return type is null or void, in which case it stays
Operand::none(); the Call quadruple carries the callee and the argument
count `Operand::intConst(args.size())`. -/
def genCallExprEmit (args : List Operand) (callee : Operand) (retType : Option Ty)
    (tempName : String) : List Quadruple × Operand :=
  let result := match retType with
    | some t => if !t.isVoid then Operand.temp tempName t else Operand.noneOp
    | none => Operand.noneOp
  (genCallParamQuads args ++ [mkQuad .Call result callee (Operand.intConst (Int.ofNat args.length))],
   result)

/-! ## Switch lowering: IRGenerator::genSwitchStmt and genCaseStmt -/

/-- The fields of SwitchInfo used by case recording and dispatch-table
generation (condition temp, end label, default label, accumulated
(value, label) pairs). -/
structure SwitchInfo where
  condition : Operand
  endLabel : String
  defaultLabel : String
  cases : List (Int × String)
deriving DecidableEq, Repr

/-- The AST expression node kinds that can appear as a case label operand
(ast::Expr subclasses from Ast.h).  genCaseStmt discriminates with
dynamic_cast, so only the IntLiteral and CharLiteral constructors matter;
every other node kind takes the default branch, and the remaining Expr
subclasses of Ast.h behave exactly like the non-literal constructors
modelled here.  CharLiteral carries a C char whose integer value the
source widens with static_cast to int64_t. -/
inductive CExpr where
  | intLiteral (value : Int) (isUnsigned : Bool) (isLong : Bool) (isLongLong : Bool)
  | floatLiteral (bits : Nat) (isFloat : Bool)
  | charLiteral (value : Int)
  | stringLiteral (value : String)
  | identExpr (name : String)
  | unaryExpr (op : Nat) (operand : CExpr)
  | binaryExpr (op : Nat) (lhs : CExpr) (rhs : CExpr)
deriving DecidableEq, Repr

/-- The case-value computation of genCaseStmt: int64_t caseValue = 0; a
dynamic_cast to IntLiteral takes its value, else a dynamic_cast to
CharLiteral takes its char value widened; everything else leaves 0. -/
def caseDispatchValue : CExpr → Int
  | .intLiteral v _ _ _ => v
  | .charLiteral c => c
  | _ => 0

/-- genCaseStmt (given the case label already minted by newLabel): emits
the label quadruple and records (caseValue, caseLabel) in the innermost
switch frame. -/
def genCaseStmt (info : SwitchInfo) (value : CExpr) (caseLabel : String) :
    SwitchInfo × List Quadruple :=
  (⟨info.condition, info.endLabel, info.defaultLabel,
    info.cases ++ [(caseDispatchValue value, caseLabel)]⟩,
   [mkQuad .Label (Operand.labelOp caseLabel)])

/-- The dispatch-table loop at the end of genSwitchStmt: for each recorded
(value, label) pair, a fresh int temp, `Eq tmp cond intConst(value)` and
`JumpTrue label tmp`; finally an unconditional `Jump` to the default label
(initialized to the end label).  tempIdx numbers the fresh temps t<n>. -/
def genSwitchDispatch (cond : Operand) (tempIdx : Nat) : List (Int × String) → List Quadruple
  | [] => []
  | (v, lbl) :: rest =>
      let cmp := Operand.temp ("t" ++ toString tempIdx) makeInt
      mkQuad .Eq cmp cond (Operand.intConst v) ::
      mkQuad .JumpTrue (Operand.labelOp lbl) cmp ::
      genSwitchDispatch cond (tempIdx + 1) rest

/-- The full jump-table block of genSwitchStmt (cascade plus final jump to
the default label). -/
def genSwitchTable (info : SwitchInfo) (tempIdx : Nat) : List Quadruple :=
  genSwitchDispatch info.condition tempIdx info.cases ++
  [mkQuad .Jump (Operand.labelOp info.defaultLabel)]

/-! ## Tag namespace: SymbolTable::addTag -/

/-- SymbolKind from SymbolTable.h. -/
inductive SymbolKind where
  | variableK | functionK | parameterK | typeDefK | structTag | unionTag
  | enumTag | enumConstant | labelK
deriving DecidableEq, Repr

/-- The Symbol fields consulted by the tag map (name, kind, type; the
TypePtr may be null). -/
structure Symbol where
  name : String
  kind : SymbolKind
  type : Option Ty
deriving DecidableEq, Repr

/-- The flat tag map tags_ of SymbolTable (std::unordered_map keyed by the
tag name; keys are unique). -/
abbrev TagMap := List (String × Symbol)

/-- tags_.find(name). -/
def tagFind (m : TagMap) (name : String) : Option Symbol :=
  match m.find? (fun e => e.1 == name) with
  | some e => some e.2
  | none => none

/-- Replacement of the entry under an existing key, `tags_[name] = sym`. -/
def tagReplace (m : TagMap) (name : String) (sym : Symbol) : TagMap :=
  match m with
  | [] => []
  | e :: rest => if e.1 == name then (name, sym) :: rest else e :: tagReplace rest name sym

/-- std::dynamic_pointer_cast<StructType>: succeeds exactly on a non-null
pointer to a StructType, yielding its (name, members, isComplete). -/
def asStructType : Option Ty → Option (String × MemberList × Bool)
  | some (.structT n ms c) => some (n, ms, c)
  | _ => none

/-- SymbolTable::addTag from SymbolTable.cpp.  If the name is present: only
a new StructTag symbol whose type and the existing entry type both cast to
StructType, with the existing one incomplete and the new one complete,
replaces the entry and succeeds; everything else fails.  An absent name is
inserted and succeeds. -/
def addTag (m : TagMap) (sym : Symbol) : TagMap × Bool :=
  match tagFind m sym.name with
  | some existing =>
      if sym.kind == .structTag then
        match asStructType existing.type, asStructType sym.type with
        | some (_, _, existComplete), some (_, _, newComplete) =>
            if !existComplete && newComplete then (tagReplace m sym.name sym, true)
            else (m, false)
        | _, _ => (m, false)
      else (m, false)
  | none => (m ++ [(sym.name, sym)], true)

/-! ## Float constant pool: CodeGenerator::getFloatLabel -/

/-- IEEE-754 binary64 bit patterns (values below 2 to the 64). -/
def f64NegZeroBits : Nat := 0x8000000000000000

/-- NaN test on a binary64 bit pattern: exponent all ones and nonzero
mantissa. -/
def f64IsNaN (b : Nat) : Bool :=
  (b / 2 ^ 52) % 2 ^ 11 == 2047 && b % 2 ^ 52 != 0

/-- Equality of two binary64 values given by their bit patterns, i.e. the
C++ operator== on double that std::unordered_map<double, std::string> uses
as its KeyEqual (with a std::hash<double> consistent with it): NaN compares
unequal to everything, positive and negative zero compare equal, and any
other two distinct bit patterns denote distinct values. -/
def f64ValEq (a b : Nat) : Bool :=
  if f64IsNaN a || f64IsNaN b then false
  else a == b || ((a == 0 || a == f64NegZeroBits) && (b == 0 || b == f64NegZeroBits))

/-- The float pool state of CodeGenerator: floatLiterals_ (keys are the
stored double values, carried here by bit pattern) and floatLabelCounter_. -/
structure FloatPool where
  entries : List (Nat × String)
  counter : Nat
deriving DecidableEq, Repr

/-- The empty pool of a fresh CodeGenerator. -/
def FloatPool.empty : FloatPool := ⟨[], 0⟩

/-- CodeGenerator::getFloatLabel: look the value up in floatLiterals_ by
double equality; on a miss mint a new label .LF<n> and store it under the
value. -/
def getFloatLabel (st : FloatPool) (valueBits : Nat) : String × FloatPool :=
  match st.entries.find? (fun e => f64ValEq e.1 valueBits) with
  | some e => (e.2, st)
  | none =>
      let label := ".LF" ++ toString st.counter
      (label, ⟨st.entries ++ [(valueBits, label)], st.counter + 1⟩)

/-- The mask lookup of CodeGenerator::translateFloatNeg:
`getFloatLabel(-0.0)`.  The comment above it in the source states the mask
must be the sign bit 0x8000000000000000. -/
def translateFloatNegMask (st : FloatPool) : String × FloatPool :=
  getFloatLabel st f64NegZeroBits

/-- CodeGenerator::emitFloatLiterals: each pool entry is emitted as its
label followed by `.quad` of the bit pattern of the stored key. -/
def emitFloatLiterals (st : FloatPool) : List (String × Nat) :=
  st.entries.map (fun e => (e.2, e.1))

/-! ## Include path resolution: Preprocessor::initIncludePaths,
addIncludePath, resolveIncludePath.

The file system is a parameter (fs p is fs::exists(p)); fs::absolute is
modelled as the identity, which is exact whenever the joined path is
already absolute, as in every theorem below. -/

/-- The segment collector behind splitColonPaths: characters of the
current segment are gathered until a colon; nonempty segments are kept. -/
def splitColonChars (current : List Char) : List Char → List (List Char)
  | [] => if current.isEmpty then [] else [current]
  | c :: rest =>
      if c == ':' then
        if current.isEmpty then splitColonChars [] rest
        else current :: splitColonChars [] rest
      else splitColonChars (current ++ [c]) rest

/-- The colon-splitting loop of initIncludePaths over the CDD_INCLUDE_PATH
value: every nonempty segment, in order. -/
def splitColonPaths (s : String) : List String :=
  (splitColonChars [] s.toList).map String.mk

/-- The stdlibCandidates vector of initIncludePaths. -/
def stdlibCandidates : List String :=
  ["/usr/local/include/cdd", "/usr/include/cdd", "/opt/cdd/include", "../stdlib", "stdlib"]

/-- Preprocessor::initIncludePaths: 1. the CDD_INCLUDE_PATH segments;
2. the CDD_STDLIB_PATH directory when set and existing, then the first
existing stdlibCandidates entry; 3. /usr/local/include and /usr/include. -/
def initIncludePaths (fs : String → Bool) (envInclude envStdlib : Option String) :
    List String :=
  (match envInclude with
   | some s => splitColonPaths s
   | none => []) ++
  (match envStdlib with
   | some p => if fs p then [p] else []
   | none => []) ++
  (match stdlibCandidates.find? fs with
   | some p => [p]
   | none => []) ++
  ["/usr/local/include", "/usr/include"]

/-- Preprocessor::addIncludePath: `includePaths_.insert(end() - 2, path)`
when at least two entries exist, i.e. the new path lands immediately
before the final two entries; otherwise it is inserted at the front. -/
def addIncludePath (paths : List String) (p : String) : List String :=
  if 2 ≤ paths.length then
    paths.take (paths.length - 2) ++ p :: paths.drop (paths.length - 2)
  else p :: paths

/-- The driver passes each -I argument to addIncludePath in command-line
order. -/
def addIncludePaths (paths : List String) (userDirs : List String) : List String :=
  userDirs.foldl addIncludePath paths

/-- Preprocessor::resolveIncludePath: absolute header names resolve to
themselves when they exist; a quoted include is tried in the directory of
the current file; then each directory of includePaths_ in order; finally
the bare name in the working directory.  An empty result ("") is none. -/
def resolveIncludePath (fs : String → Bool) (paths : List String) (currentDir : String)
    (headerName : String) (isSystemHeader : Bool) : Option String :=
  if (match headerName.toList with | c :: _ => c == '/' | [] => false) then
    if fs headerName then some headerName else none
  else if !isSystemHeader && currentDir ≠ "" && fs (currentDir ++ "/" ++ headerName) then
    some (currentDir ++ "/" ++ headerName)
  else
    match paths.find? (fun dir => fs (dir ++ "/" ++ headerName)) with
    | some dir => some (dir ++ "/" ++ headerName)
    | none => if fs headerName then some headerName else none

/-! ## Macro expansion: Preprocessor::expandMacros, parseMacroArgs,
substituteArgs.

The char-classification functions are those of the C locale.  Loops that a
C++ index walks are recursions here; each carries a fuel argument bounded
below by the number of remaining characters plus one, and since every
iteration consumes at least one character the fuel-exhaustion branch is
unreachable at every call site in this file (fuel only discharges Lean
termination; it never changes the computed value). -/

/-- std::isalpha in the C locale. -/
def cIsAlpha (c : Char) : Bool :=
  (('a' ≤ c && c ≤ 'z') || ('A' ≤ c && c ≤ 'Z'))

/-- Decimal digit test. -/
def cIsDigit (c : Char) : Bool := '0' ≤ c && c ≤ '9'

/-- std::isalnum in the C locale. -/
def cIsAlnum (c : Char) : Bool := cIsAlpha c || cIsDigit c

/-- std::isspace in the C locale. -/
def cIsSpace (c : Char) : Bool :=
  c == ' ' || c == '\t' || c == '\n' || c == '\x0b' || c == '\x0c' || c == '\r'

/-- MacroDef from Preprocessor.h: isFunctionLike, params, body. -/
structure MacroDef where
  isFunctionLike : Bool
  params : List String
  body : List Char
deriving DecidableEq, Repr

/-- The macro table macros_ (std::unordered_map keyed by macro name). -/
abbrev MacroTable := List (String × MacroDef)

/-- macros_.count(word) followed by macros_[word]. -/
def macroFind (ms : MacroTable) (word : String) : Option MacroDef :=
  match ms.find? (fun e => e.1 == word) with
  | some e => some e.2
  | none => none

/-- Preprocessor::trim: strip leading and trailing " \t\r\n". -/
def trimChars (s : List Char) : List Char :=
  let isTrimWs := fun (c : Char) => c == ' ' || c == '\t' || c == '\r' || c == '\n'
  ((s.dropWhile isTrimWs).reverse.dropWhile isTrimWs).reverse

/-- The identifier reader shared by expandMacros and substituteArgs:
the longest prefix of alnum-or-underscore characters and the rest. -/
def readWordChars : List Char → List Char × List Char
  | [] => ([], [])
  | c :: rest =>
      if cIsAlnum c || c == '_' then
        let (w, r) := readWordChars rest
        (c :: w, r)
      else ([], c :: rest)

/-- The lookahead of the function-like branch of expandMacros: skip
whitespace and test for an opening parenthesis. -/
def hasParenAhead (cs : List Char) : Bool :=
  match cs.dropWhile cIsSpace with
  | '(' :: _ => true
  | _ => false

/-- The argument-collection loop of Preprocessor::parseMacroArgs after the
opening parenthesis: nested parentheses are tracked, top-level commas
separate arguments, the closing parenthesis pushes the trimmed final
argument and returns the rest; running out of input is the
std::runtime_error throw (none). -/
def parseMacroArgsLoop (depth : Int) (currentArg : List Char) (args : List String) :
    List Char → Option (List String × List Char)
  | [] => none
  | c :: rest =>
      if c == '(' then parseMacroArgsLoop (depth + 1) (currentArg ++ [c]) args rest
      else if c == ')' then
        if depth == 0 then some (args ++ [String.mk (trimChars currentArg)], rest)
        else parseMacroArgsLoop (depth - 1) (currentArg ++ [c]) args rest
      else if c == ',' && depth == 0 then
        parseMacroArgsLoop depth [] (args ++ [String.mk (trimChars currentArg)]) rest
      else parseMacroArgsLoop depth (currentArg ++ [c]) args rest

/-- Preprocessor::parseMacroArgs: skip whitespace; without an opening
parenthesis return no arguments (the caller has already established one is
present); otherwise run the collection loop. -/
def parseMacroArgs (cs : List Char) : Option (List String × List Char) :=
  let cs2 := cs.dropWhile cIsSpace
  match cs2 with
  | '(' :: rest => parseMacroArgsLoop 0 [] [] rest
  | _ => some ([], cs2)

/-- std::find on the parameter vector, as in the findParamIndex helper of
substituteArgs (position of the first match). -/
def findParamIndex (params : List String) (name : String) : Option Nat :=
  params.indexOf? name

/-- The stringify helper of substituteArgs: wrap in double quotes, escaping
backslash and double quote. -/
def stringifyArg (s : String) : List Char :=
  '"' :: (s.toList.flatMap (fun c =>
    if c == '"' then ['\\', '"']
    else if c == '\\' then ['\\', '\\']
    else [c])) ++ ['"']

/-- One step of the quote-state tracking at the top of the substituteArgs
loop: given the previous original character, the current character and the
current (inString, inChar) flags, the updated flags. -/
def quoteStep (prev : Option Char) (c : Char) (inString inChar : Bool) : Bool × Bool :=
  if !inChar && c == '"' then
    if prev != some '\\' then (!inString, inChar) else (inString, inChar)
  else if !inString && c == '\'' then
    if prev != some '\\' then (inString, !inChar) else (inString, inChar)
  else (inString, inChar)

/-- The body-walking loop of Preprocessor::substituteArgs.  Quote state is
updated first and characters inside string or char literals are copied
verbatim; `##` pops trailing whitespace off the result and pastes the next
identifier (a parameter pastes its argument value); `#` stringizes a
following parameter name; a bare identifier that is a parameter is replaced
by its argument value; everything else is copied.  prev is the character
the C++ index has just moved past (body[i-1]). -/
def substituteLoop (params args : List String) :
    Nat → List Char → Option Char → Bool → Bool → List Char → Option (List Char)
  | 0, _, _, _, _, _ => none
  | _ + 1, [], _, _, _, result => some result
  | fuel + 1, c :: rest, prev, inString, inChar, result =>
      let (inString2, inChar2) := quoteStep prev c inString inChar
      if inString2 || inChar2 then
        substituteLoop params args fuel rest (some c) inString2 inChar2 (result ++ [c])
      else if c == '#' && (match rest with | '#' :: _ => true | _ => false) then
        let result2 := (result.reverse.dropWhile cIsSpace).reverse
        let afterOp := match rest with
          | _ :: r => r
          | [] => []
        let ws := afterOp.takeWhile cIsSpace
        let afterWs := afterOp.dropWhile cIsSpace
        let prevAfterOp := match ws.getLast? with
          | some w => some w
          | none => some '#'
        match afterWs with
        | d :: _ =>
            if cIsAlpha d || d == '_' then
              let (wordChars, rest2) := readWordChars afterWs
              let word := String.mk wordChars
              let pasted := match findParamIndex params word with
                | some idx => ((args.get? idx).getD "").toList
                | none => wordChars
              substituteLoop params args fuel rest2 (wordChars.getLast? <|> prevAfterOp)
                inString2 inChar2 (result2 ++ pasted)
            else
              substituteLoop params args fuel afterWs prevAfterOp inString2 inChar2 result2
        | [] => substituteLoop params args fuel [] prevAfterOp inString2 inChar2 result2
      else if c == '#' then
        let ws := rest.takeWhile cIsSpace
        let afterWs := rest.dropWhile cIsSpace
        let prevAfterOp := match ws.getLast? with
          | some w => some w
          | none => some '#'
        match afterWs with
        | d :: _ =>
            if cIsAlpha d || d == '_' then
              let (wordChars, rest2) := readWordChars afterWs
              let word := String.mk wordChars
              let emitted := match findParamIndex params word with
                | some idx => stringifyArg ((args.get? idx).getD "")
                | none => '#' :: wordChars
              substituteLoop params args fuel rest2 (wordChars.getLast? <|> prevAfterOp)
                inString2 inChar2 (result ++ emitted)
            else
              substituteLoop params args fuel afterWs prevAfterOp inString2 inChar2 (result ++ ['#'])
        | [] => substituteLoop params args fuel [] prevAfterOp inString2 inChar2 (result ++ ['#'])
      else if cIsAlpha c || c == '_' then
        let (wordChars, rest2) := readWordChars (c :: rest)
        let word := String.mk wordChars
        let emitted := match findParamIndex params word with
          | some idx => ((args.get? idx).getD "").toList
          | none => wordChars
        substituteLoop params args fuel rest2 (wordChars.getLast? <|> prev)
          inString2 inChar2 (result ++ emitted)
      else
        substituteLoop params args fuel rest (some c) inString2 inChar2 (result ++ [c])

/-- Preprocessor::substituteArgs: a parameter/argument count mismatch
returns the body unchanged; otherwise the walking loop runs (the fuel
bound exceeds the body length, so exhaustion is unreachable). -/
def substituteArgs (body : List Char) (params args : List String) : Option (List Char) :=
  if params.length ≠ args.length then some body
  else substituteLoop params args (body.length + 1) body none false false []

/-- Option-sequenced map of the argument pre-expansion loop of
expandMacros: each raw argument is expanded with an empty forbidden set. -/
def expandArgsList (expandNested : List Char → List String → Option (List Char)) :
    List String → Option (List String)
  | [] => some []
  | a :: rest =>
      match expandNested a.toList [] with
      | some ea =>
          match expandArgsList expandNested rest with
          | some ers => some (String.mk ea :: ers)
          | none => none
      | none => none

/-- The character-scanning loop of Preprocessor::expandMacros.  Identifiers
are read greedily; a macro name not in the forbidden set expands (an
object-like body directly; a function-like macro only when a parenthesis
follows: arguments are parsed, pre-expanded, substituted into the body) and
the substituted text is rescanned with the macro name added to the
forbidden set; every other character is appended verbatim.  There is no
string-literal or char-literal tracking in this loop: a quote character
takes the verbatim branch and scanning continues inside the literal.
expandNested is the recursive call at one smaller macro-recursion depth. -/
def emLoop (macros : MacroTable)
    (expandNested : List Char → List String → Option (List Char)) :
    Nat → List Char → List String → List Char → Option (List Char)
  | 0, _, _, _ => none
  | _ + 1, [], _, result => some result
  | fuel + 1, c :: rest, forbidden, result =>
      if cIsAlpha c || c == '_' then
        let (wordChars, rest2) := readWordChars (c :: rest)
        let word := String.mk wordChars
        match macroFind macros word with
        | some md =>
            if forbidden.contains word then
              emLoop macros expandNested fuel rest2 forbidden (result ++ wordChars)
            else if md.isFunctionLike then
              if hasParenAhead rest2 then
                match parseMacroArgs rest2 with
                | none => none
                | some (rawArgs, rest3) =>
                    match expandArgsList expandNested rawArgs with
                    | none => none
                    | some expArgs =>
                        match substituteArgs md.body md.params expArgs with
                        | none => none
                        | some substd =>
                            match expandNested substd (word :: forbidden) with
                            | none => none
                            | some expanded =>
                                emLoop macros expandNested fuel rest3 forbidden
                                  (result ++ expanded)
              else emLoop macros expandNested fuel rest2 forbidden (result ++ wordChars)
            else
              match expandNested md.body (word :: forbidden) with
              | none => none
              | some expanded =>
                  emLoop macros expandNested fuel rest2 forbidden (result ++ expanded)
        | none => emLoop macros expandNested fuel rest2 forbidden (result ++ wordChars)
      else emLoop macros expandNested fuel rest forbidden (result ++ [c])

/-- Preprocessor::expandMacros.  The Nat argument bounds the nested
macro-expansion depth (each rescan and each argument pre-expansion is one
nested C++ call); the scanning loop gets fuel exceeding the line length.
An empty macro table returns the line unchanged, as in the source. -/
def expandMacrosF (macros : MacroTable) : Nat → List Char → List String → Option (List Char)
  | 0, _, _ => none
  | depth + 1, line, forbidden =>
      if macros.isEmpty then some line
      else emLoop macros (fun l fb => expandMacrosF macros depth l fb)
        (line.length + 1) line forbidden []

/-! ## Lexer comment skipping: Lexer::scanToken and getFallbackState -/

/-- LexerState from Lexer.h (the full enumeration). -/
inductive LexerState where
  | Start | Done | Error
  | InIdentifier
  | InInteger | InOctal | InHex | InHexStart | InZero
  | InFloat | InFloatExp | InFloatExpSign | InFloatDot
  | InChar | InCharEscape | InCharOctal1 | InCharOctal2
  | InCharHexStart | InCharHex1 | InCharEnd
  | InString | InStringEscape | InStringOctal1 | InStringOctal2
  | InStringHexStart | InStringHex1
  | InLineComment | InBlockComment | InBlockCommentStar
  | InSlash | InPlus | InMinus | InAmp | InPipe | InEqual | InExclaim
  | InLess | InGreater | InStar | InPercent | InCaret | InDot | InDotDot
  | InLessLess | InGreaterGreater
  | InIntSuffixU | InIntSuffixL | InIntSuffixUL | InIntSuffixLL
  | InBinaryStart | InBinary
deriving DecidableEq, Repr

/-- Lexer::getFallbackState from Lexer.cpp: the token-finalization decision
of the maximal-munch automaton when no transition applies.  In particular
an unterminated block comment state falls back to Error (the source comment
there reads: block comment not closed). -/
def getFallbackState : LexerState → LexerState
  | .Start => .Error
  | .InIdentifier => .Done
  | .InInteger | .InZero | .InOctal | .InHex | .InFloat | .InBinary => .Done
  | .InIntSuffixU | .InIntSuffixL | .InIntSuffixUL | .InIntSuffixLL => .Done
  | .InHexStart | .InBinaryStart | .InFloatExp | .InFloatExpSign => .Error
  | .InFloatDot => .Done
  | .InChar | .InCharEscape | .InCharEnd | .InCharOctal1 | .InCharOctal2 => .Error
  | .InCharHexStart | .InCharHex1 => .Error
  | .InString | .InStringEscape | .InStringOctal1 | .InStringOctal2 => .Error
  | .InStringHexStart | .InStringHex1 => .Error
  | .InLineComment => .Done
  | .InBlockComment | .InBlockCommentStar => .Error
  | .InSlash | .InPlus | .InMinus | .InStar | .InPercent | .InEqual => .Done
  | .InExclaim | .InLess | .InGreater | .InLessLess | .InGreaterGreater => .Done
  | .InAmp | .InPipe | .InCaret | .InDot => .Done
  | .InDotDot => .Error
  | .Done => .Done
  | .Error => .Error

/-- Lexer::skipWhitespace: consume space, tab, carriage return, newline. -/
def lexSkipWs (cs : List Char) : List Char :=
  cs.dropWhile (fun c => c == ' ' || c == '\t' || c == '\r' || c == '\n')

/-- The line-comment consumption inside the skip loop of scanToken: skip to
end of input or to the newline, which is left in place. -/
def dropLineComment : List Char → List Char
  | [] => []
  | c :: rest => if c == '\n' then c :: rest else dropLineComment rest

/-- The block-comment consumption inside the skip loop of scanToken: scan
for the two-character close; reaching end of input simply leaves nothing
(no error is produced anywhere on this path). -/
def dropBlockComment : List Char → List Char
  | [] => []
  | '*' :: '/' :: rest => rest
  | _ :: rest => dropBlockComment rest

/-- Outcome of the whitespace-and-comment skip phase at the top of
Lexer::scanToken. -/
inductive ScanPhase where
  | eofToken
  | tokenStart (rest : List Char)
  | fuelOut
deriving DecidableEq, Repr

/-- The skip loop at the top of Lexer::scanToken: skip whitespace; at end
of input return Token(EndOfFile) immediately (ScanPhase.eofToken: this path
records no diagnostic anywhere; the only diagnostics scanToken can produce
are Invalid tokens, created after tokenStart); a // or a /* comment is
consumed (the latter by dropBlockComment, terminated or not) and the loop
restarts; any other character starts a token.  Each loop iteration that
continues consumes at least two characters, so the fuel bound used below
is never reached. -/
def scanTokenSkip : Nat → List Char → ScanPhase
  | 0, _ => .fuelOut
  | fuel + 1, cs =>
      let cs2 := lexSkipWs cs
      match cs2 with
      | [] => .eofToken
      | '/' :: '/' :: rest => scanTokenSkip fuel (dropLineComment rest)
      | '/' :: '*' :: rest => scanTokenSkip fuel (dropBlockComment rest)
      | other => .tokenStart other

/-- The skip phase with its adequate fuel. -/
def scanTokenSkipPhase (cs : List Char) : ScanPhase :=
  scanTokenSkip (cs.length + 1) cs

/-! ## Statement-side definitions

The next definitions are not translations of program code; they exist to
state claims: the first three render the wording of the (amended) integer
promotion rule so it can be compared against getCommonType, and the
remaining ones are well-formedness predicates and bounds used as theorem
hypotheses. -/

/-- Wording of the promotion rule: a kind narrower than int is elevated to
int. -/
def IntegerKind.elevated (k : IntegerKind) : IntegerKind :=
  if k.rank < IntegerKind.int.rank then .int else k

/-- Wording of the promotion rule: the wider of two kinds (either one on a
tie, when they are the same kind). -/
def IntegerKind.wider (a b : IntegerKind) : IntegerKind :=
  if a.rank ≤ b.rank then b else a

/-- Wording of the promotion rule for signedness, applied to the original
operand kinds: on equal kinds either unsigned flag wins; otherwise the
operand with the wider kind donates its signedness. -/
def commonSignedness (k1 : IntegerKind) (u1 : Bool) (k2 : IntegerKind) (u2 : Bool) : Bool :=
  if k1 = k2 then u1 || u2
  else if k2.rank < k1.rank then u1 else u2

/-- Every member type in the list has nonnegative size (true of every type
the semantic analyzer actually constructs; needed as a hypothesis because
a raw Ty value may embed arbitrary offsets). -/
def MemberList.sizesNonneg : MemberList → Prop
  | .nil => True
  | .cons _ t _ rest => 0 ≤ t.size ∧ rest.sizesNonneg

/-- Every offset in the member list is at most the bound. -/
def offsetsBoundedBy (ms : MemberList) (b : Int) : Prop :=
  ∀ x ∈ ms.offsets, x ≤ b

/-- Precondition on a field fed to the layout loop: its type has
nonnegative size, and when it is an anonymous struct or union whose
members get promoted, those member types have nonnegative sizes too. -/
def FieldSizesOk (f : FieldDecl) : Prop :=
  0 ≤ f.type.size ∧
  (∀ n ms c, f.type = Ty.structT n ms c → ms.sizesNonneg) ∧
  (∀ n ms c, f.type = Ty.unionT n ms c → ms.sizesNonneg)

/-- A tag symbol is coherent when its type is a StructType exactly if its
kind says StructTag (true of every symbol the analyzer registers in the
tag map). -/
def TagSymbolCoherent (s : Symbol) : Prop :=
  (asStructType s.type).isSome ↔ s.kind = SymbolKind.structTag

/-! # Theorems -/

theorem beqSwap {α : Type _} [DecidableEq α] (a b : α) : (a == b) = (b == a) := by
  rcases eq_or_ne a b with h | h
  · subst h; rfl
  · rw [beq_eq_false_iff_ne.mpr h, beq_eq_false_iff_ne.mpr (Ne.symm h)]

theorem bneSwap {α : Type _} [DecidableEq α] (a b : α) : (a != b) = (b != a) := by
  simp only [bne, beqSwap a b]

mutual
theorem areTypesCompatible_refl : ∀ t : Ty, areTypesCompatible t t = true
  | .void => rfl
  | .integer k u => by simp [areTypesCompatible]
  | .float f => by simp [areTypesCompatible]
  | .pointer p => by
      simp only [areTypesCompatible]
      cases hp : p.isVoid
      · simp [hp, areTypesCompatible_refl p]
      · simp [hp]
  | .array e l => by
      simp only [areTypesCompatible, areTypesCompatible_refl e]
      rcases lt_or_le l 0 with hl | hl
      · simp [hl]
      · simp [not_lt.mpr hl]
  | .func r ps v => by
      simp [areTypesCompatible, areTypesCompatible_refl r, compatParams_refl ps]
  | .structT n ms c => by simp [areTypesCompatible]
  | .unionT n ms c => by simp [areTypesCompatible]
  | .enumT n es => by simp [areTypesCompatible]

theorem compatParams_refl : ∀ l : TyList, compatParams l l = true
  | .nil => rfl
  | .cons h t => by
      simp [compatParams, areTypesCompatible_refl h, compatParams_refl t]
end

mutual
theorem areTypesCompatible_symm : ∀ t1 t2 : Ty,
    areTypesCompatible t1 t2 = areTypesCompatible t2 t1
  | .void, t2 => by cases t2 <;> rfl
  | .integer k1 u1, t2 => by
      cases t2 <;> try rfl
      simp only [areTypesCompatible]
      rw [beqSwap k1, beqSwap u1]
  | .float f1, t2 => by
      cases t2 <;> try rfl
      simp only [areTypesCompatible]
      rw [beqSwap f1]
  | .pointer p1, t2 => by
      cases t2 <;> try rfl
      next p2 =>
        simp only [areTypesCompatible]
        rw [Bool.or_comm, areTypesCompatible_symm p1 p2]
  | .array e1 l1, t2 => by
      cases t2 <;> try rfl
      next e2 l2 =>
        simp only [areTypesCompatible]
        rw [Bool.or_comm, areTypesCompatible_symm e1 e2, beqSwap l1]
  | .func r1 ps1 v1, t2 => by
      cases t2 <;> try rfl
      next r2 ps2 v2 =>
        simp only [areTypesCompatible]
        rw [areTypesCompatible_symm r1 r2, bneSwap ps1.length, bneSwap v1,
          compatParams_symm ps1 ps2]
  | .structT n1 ms1 c1, t2 => by
      cases t2 <;> try rfl
      simp only [areTypesCompatible]
      rw [beqSwap n1]
  | .unionT n1 ms1 c1, t2 => by
      cases t2 <;> try rfl
      simp only [areTypesCompatible]
      rw [beqSwap n1]
  | .enumT n1 es1, t2 => by
      cases t2 <;> try rfl
      simp only [areTypesCompatible]
      rw [beqSwap n1]

theorem compatParams_symm : ∀ l1 l2 : TyList, compatParams l1 l2 = compatParams l2 l1
  | .nil, l2 => by cases l2 <;> rfl
  | .cons h1 t1, l2 => by
      cases l2 <;> try rfl
      next h2 t2 =>
        simp only [compatParams]
        rw [areTypesCompatible_symm h1 h2, compatParams_symm t1 t2]
end

/-- C8: areTypesCompatible is reflexive on every semantic type and
symmetric on every pair of semantic types. -/
theorem claim_C8_type_compatibility_refl_symm :
    ∀ T U : Ty, areTypesCompatible T T = true ∧
      areTypesCompatible T U = areTypesCompatible U T :=
  fun T U => ⟨areTypesCompatible_refl T, areTypesCompatible_symm T U⟩

/-- C2 counterexample: the common type of char and char is char itself,
not a type of kind int: the compatible-types short circuit at the top of
getCommonType returns the first operand type before the promotion branch
is ever reached. -/
theorem claim_C2_char_char_counterexample :
    getCommonType (.integer .char false) (.integer .char false) =
      some (.integer .char false) ∧
    getCommonType (.integer .char false) (.integer .char false) ≠
      some (.integer .int false) ∧
    getCommonType (.integer .char false) (.integer .char false) ≠
      some (.integer .int true) := by decide

/-- C2 amended: for two integer operand types, getCommonType applies
integer promotion (elevate below int, pick the wider kind, signedness from
the original kinds) only when the operand types differ in kind or
signedness; two identical integer types yield that very type, so char and
char yield char, not int. -/
theorem claim_C2_integer_common_type :
    ∀ (k1 : IntegerKind) (u1 : Bool) (k2 : IntegerKind) (u2 : Bool),
      getCommonType (.integer k1 u1) (.integer k2 u2) =
        some (if k1 = k2 ∧ u1 = u2 then Ty.integer k1 u1
              else Ty.integer (IntegerKind.wider k1.elevated k2.elevated)
                (commonSignedness k1 u1 k2 u2)) := by decide

theorem genCallParamQuads_eq_reverse_map (args : List Operand) :
    genCallParamQuads args =
      args.reverse.map (fun a => mkQuad .Param Operand.noneOp a) := by
  induction args with
  | nil => rfl
  | cons a rest ih => simp [genCallParamQuads, ih]

/-- C1 counterexample: for a call f(1, 2) the emitted quadruples are not
one Param for the first argument followed by one Param for the second;
the generator emits the Param for the second argument first. -/
theorem claim_C1_param_order_counterexample :
    (genCallExprEmit [Operand.intConst 1, Operand.intConst 2]
        (Operand.labelOp "f") (some .void) "t0").1 ≠
      [mkQuad .Param Operand.noneOp (Operand.intConst 1),
       mkQuad .Param Operand.noneOp (Operand.intConst 2),
       mkQuad .Call Operand.noneOp (Operand.labelOp "f") (Operand.intConst 2)] := by
  decide

/-- C1 amended: genCallExpr emits one Param quadruple per argument in
reverse source order (the Param for the last argument first, the Param for
the first argument last), followed by the Call quadruple carrying the
callee operand and the argument count; a call whose result type is void
(or null) gets no result operand on the Call quadruple, and a non-void
call gets a fresh temp of the return type. -/
theorem claim_C1_call_emission :
    ∀ (args : List Operand) (callee : Operand) (retType : Option Ty) (tmp : String),
      (genCallExprEmit args callee retType tmp).1 =
        args.reverse.map (fun a => mkQuad .Param Operand.noneOp a) ++
          [mkQuad .Call (genCallExprEmit args callee retType tmp).2 callee
            (Operand.intConst (Int.ofNat args.length))] ∧
      (genCallExprEmit args callee (some .void) tmp).2 = Operand.noneOp ∧
      (genCallExprEmit args callee none tmp).2 = Operand.noneOp ∧
      (∀ t : Ty, t.isVoid = false →
        (genCallExprEmit args callee (some t) tmp).2 = Operand.temp tmp t) := by
  intro args callee retType tmp
  refine ⟨?_, rfl, rfl, ?_⟩
  · simp [genCallExprEmit, genCallParamQuads_eq_reverse_map]
  · intro t ht
    simp [genCallExprEmit, ht]

/-- C1 witness: a one-argument non-void call instantiating the amended
emission theorem. -/
theorem claim_C1_call_emission_witness :
    (genCallExprEmit [Operand.intConst 3] (Operand.labelOp "g") (some makeInt) "t1").2 =
      Operand.temp "t1" makeInt :=
  (claim_C1_call_emission [Operand.intConst 3] (Operand.labelOp "g")
    (some makeInt) "t1").2.2.2 makeInt (by decide)

/-- C3: the float pool interns by double value equality, not by bit
pattern.  Emitting 0.0 (bits 0) mints .LF0; then emitting -0.0 (bit
pattern with only the sign bit set, a distinct pattern) finds the existing
entry because 0.0 == -0.0 as doubles, and returns the same .LF0 label; the
mask lookup of translateFloatNeg therefore also yields .LF0, whose emitted
pool entry is `.quad 0` - not the sign mask 0x8000000000000000 that the
comment in translateFloatNeg documents. -/
theorem claim_C3_float_pool_value_collision :
    (getFloatLabel FloatPool.empty 0).1 = ".LF0" ∧
    (getFloatLabel (getFloatLabel FloatPool.empty 0).2 f64NegZeroBits).1 = ".LF0" ∧
    (translateFloatNegMask (getFloatLabel FloatPool.empty 0).2).1 = ".LF0" ∧
    emitFloatLiterals (translateFloatNegMask (getFloatLabel FloatPool.empty 0).2).2 =
      [(".LF0", 0)] ∧
    (0 : Nat) ≠ f64NegZeroBits := by decide

/-- C4: expandMacros rewrites identifiers inside string literals: with the
object-like macro A defined as 1, the line printf("A"); expands to
printf("1"); - the scanning loop of expandMacros carries no string-literal
or char-literal state at all.  The second conjunct shows the same macro
table leaves a macro-free line unchanged. -/
theorem claim_C4_macro_expands_inside_string_literal :
    expandMacrosF [("A", ⟨false, [], "1".toList⟩)] 2 ("printf(\"A\");".toList) [] =
      some ("printf(\"1\");".toList) ∧
    expandMacrosF [("A", ⟨false, [], "1".toList⟩)] 2 ("printf(\"B\");".toList) [] =
      some ("printf(\"B\");".toList) := by decide

/-- C6: on an input whose block comment is never closed, the skip loop at
the top of scanToken consumes the comment to end of input and returns a
plain EndOfFile token with no diagnostic (ScanPhase.eofToken); yet the
fallback table of the DFA maps InBlockComment to Error - an error provision
the skip loop makes unreachable, because comments are consumed before the
DFA ever runs.  The middle conjuncts show the skip loop otherwise behaving
normally (a closed comment is skipped; ordinary input starts a token). -/
theorem claim_C6_unterminated_block_comment_silent :
    scanTokenSkipPhase ("/* never closed".toList) = .eofToken ∧
    scanTokenSkipPhase ("  /* c */ x".toList) = .tokenStart ['x'] ∧
    scanTokenSkipPhase ("int x".toList) = .tokenStart ("int x".toList) ∧
    getFallbackState .InBlockComment = .Error := by decide

theorem addIncludePath_before_suffix (pre : List String) (a b p : String) :
    addIncludePath (pre ++ [a, b]) p = (pre ++ [p]) ++ [a, b] := by
  have hlen : (pre ++ [a, b]).length = pre.length + 2 := by simp
  have h2 : 2 ≤ (pre ++ [a, b]).length := by omega
  simp only [addIncludePath, if_pos h2, hlen, Nat.add_sub_cancel]
  rw [List.take_left, List.drop_left]
  simp

theorem addIncludePaths_before_suffix :
    ∀ (userDirs pre : List String) (a b : String),
      addIncludePaths (pre ++ [a, b]) userDirs = (pre ++ userDirs) ++ [a, b]
  | [], pre, a, b => by simp [addIncludePaths]
  | u :: us, pre, a, b => by
      have step : addIncludePaths (pre ++ [a, b]) (u :: us) =
          addIncludePaths ((pre ++ [u]) ++ [a, b]) us := by
        simp [addIncludePaths, addIncludePath_before_suffix]
      rw [step, addIncludePaths_before_suffix us (pre ++ [u]) a b]
      simp

/-- C5 counterexample: with CDD_INCLUDE_PATH=/env and a single -I /idir,
a header h.h present in both directories resolves to the /env copy, not
the /idir copy: addIncludePath inserts each -I directory only ahead of the
two trailing system defaults, i.e. after the CDD_INCLUDE_PATH directories
already installed by initIncludePaths. -/
theorem claim_C5_user_dir_counterexample :
    resolveIncludePath (fun p => p ∈ (["/env/h.h", "/idir/h.h"] : List String))
        (addIncludePaths
          (initIncludePaths (fun p => p ∈ (["/env/h.h", "/idir/h.h"] : List String))
            (some "/env") none)
          ["/idir"])
        "" "h.h" false = some "/env/h.h" ∧
      ("/env/h.h" : String) ≠ "/idir/h.h" := by decide

/-- C5 amended: the include search list, after the driver adds the -I
directories, is: the CDD_INCLUDE_PATH segments first, then the optional
CDD_STDLIB_PATH directory and the first existing standard-library
candidate, then the -I directories in command-line order, and the two
system defaults /usr/local/include and /usr/include last; hence a header
present in both a -I directory and a CDD_INCLUDE_PATH directory resolves
to the CDD_INCLUDE_PATH copy (the -I directories do come ahead of the two
system defaults, but after the environment paths). -/
theorem claim_C5_include_search_order :
    ∀ (fs : String → Bool) (envInclude envStdlib : Option String)
      (userDirs : List String),
      addIncludePaths (initIncludePaths fs envInclude envStdlib) userDirs =
        ((match envInclude with
          | some s => splitColonPaths s
          | none => []) ++
         (match envStdlib with
          | some p => if fs p then [p] else []
          | none => []) ++
         (match stdlibCandidates.find? fs with
          | some p => [p]
          | none => []) ++
         userDirs) ++
        ["/usr/local/include", "/usr/include"] := by
  intro fs envInclude envStdlib userDirs
  have h := addIncludePaths_before_suffix userDirs
    ((match envInclude with
      | some s => splitColonPaths s
      | none => []) ++
     (match envStdlib with
      | some p => if fs p then [p] else []
      | none => []) ++
     (match stdlibCandidates.find? fs with
      | some p => [p]
      | none => []))
    "/usr/local/include" "/usr/include"
  simpa [initIncludePaths, List.append_assoc] using h

mutual
theorem Ty.alignment_pos : ∀ t : Ty, 1 ≤ t.alignment
  | .void => by norm_num [Ty.alignment]
  | .integer k u => by cases k <;> norm_num [Ty.alignment, IntegerKind.size]
  | .float fk => by cases fk <;> norm_num [Ty.alignment, FloatKind.size]
  | .pointer p => by norm_num [Ty.alignment]
  | .array e l => by simpa [Ty.alignment] using Ty.alignment_pos e
  | .func r ps v => by norm_num [Ty.alignment]
  | .structT n ms c => by simpa [Ty.alignment] using MemberList.maxAlign_pos ms
  | .unionT n ms c => by simpa [Ty.alignment] using MemberList.maxAlign_pos ms
  | .enumT n es => by norm_num [Ty.alignment]

theorem MemberList.maxAlign_pos : ∀ ms : MemberList, 1 ≤ ms.maxAlign
  | .nil => le_refl 1
  | .cons n t off rest => by
      have h := MemberList.maxAlign_pos rest
      simp only [MemberList.maxAlign]
      exact le_trans h (le_max_left _ _)
end

theorem MemberList.maxSize_nonneg : ∀ ms : MemberList, 0 ≤ ms.maxSize
  | .nil => le_refl 0
  | .cons n t off rest => by
      have h := MemberList.maxSize_nonneg rest
      simp only [MemberList.maxSize]
      exact le_trans h (le_max_left _ _)

theorem cppRoundUp_ge (s a : Int) (hs : 0 ≤ s) (ha : 1 ≤ a) : s ≤ cppRoundUp s a := by
  have hid := Int.tdiv_add_tmod (s + a - 1) a
  have hmn : 0 ≤ (s + a - 1).tmod a := Int.tmod_nonneg a (by linarith)
  have hlt : (s + a - 1).tmod a < a := Int.tmod_lt_of_pos _ (by linarith)
  have hru : cppRoundUp s a = a * ((s + a - 1).tdiv a) := by
    rw [cppRoundUp, mul_comm]
  rw [hru]
  linarith

theorem memOfGetLastQ {l : List Int} {x : Int} (h : x ∈ l.getLast?) : x ∈ l := by
  rcases List.mem_getLast?_eq_getLast h with ⟨hne, rfl⟩
  exact List.getLast_mem hne

theorem chain_le_append_one (l : List Int) (off : Int) (hc : l.Chain' (· ≤ ·))
    (hb : ∀ x ∈ l, x ≤ off) : (l ++ [off]).Chain' (· ≤ ·) := by
  rw [List.chain'_append]
  refine ⟨hc, List.chain'_singleton off, ?_⟩
  intro x hx y hy
  simp only [List.head?_cons, Option.mem_def, Option.some.injEq] at hy
  subst hy
  exact hb x (memOfGetLastQ hx)

theorem MemberList.push_offsets : ∀ (ms : MemberList) (n : String) (t : Ty) (off : Int),
    (ms.push n t off).offsets = ms.offsets ++ [off]
  | .nil, _, _, _ => rfl
  | .cons n0 t0 o0 rest, n, t, off => by
      simp [MemberList.push, MemberList.offsets, MemberList.push_offsets rest]

theorem boundedBy_mono {ms : MemberList} {b1 b2 : Int} (h : offsetsBoundedBy ms b1)
    (hb : b1 ≤ b2) : offsetsBoundedBy ms b2 :=
  fun x hx => le_trans (h x hx) hb

theorem boundedBy_push {acc : MemberList} {n : String} {t : Ty} {off b : Int}
    (h : offsetsBoundedBy acc b) (ho : off ≤ b) :
    offsetsBoundedBy (acc.push n t off) b := by
  intro x hx
  rw [MemberList.push_offsets] at hx
  rcases List.mem_append.mp hx with hx | hx
  · exact h x hx
  · simp only [List.mem_singleton] at hx
    subst hx
    exact ho

theorem chain_push {acc : MemberList} {n : String} {t : Ty} {off : Int}
    (hc : acc.offsets.Chain' (· ≤ ·)) (hb : offsetsBoundedBy acc off) :
    ((acc.push n t off).offsets.Chain' (· ≤ ·)) := by
  rw [MemberList.push_offsets]
  exact chain_le_append_one _ _ hc hb

theorem layoutAnonStruct_inv :
    ∀ (anonMs : MemberList) (acc : MemberList) (offset : Int),
      anonMs.sizesNonneg →
      acc.offsets.Chain' (· ≤ ·) →
      offsetsBoundedBy acc offset →
      0 ≤ offset →
      ((layoutAnonStruct acc offset anonMs).1.offsets.Chain' (· ≤ ·) ∧
       offsetsBoundedBy (layoutAnonStruct acc offset anonMs).1
         (layoutAnonStruct acc offset anonMs).2 ∧
       offset ≤ (layoutAnonStruct acc offset anonMs).2)
  | .nil, acc, offset, _, hc, hb, _ => ⟨hc, hb, le_refl _⟩
  | .cons n t moff rest, acc, offset, hsz, hc, hb, ho => by
      obtain ⟨hts, hrest⟩ := hsz
      by_cases hdup : acc.hasMember n = true
      · simpa only [layoutAnonStruct, hdup, if_true] using
          layoutAnonStruct_inv rest acc offset hrest hc hb ho
      · replace hdup : acc.hasMember n = false := by
          cases h : acc.hasMember n
          · rfl
          · exact absurd h hdup
        have halign : 1 ≤ t.alignment := Ty.alignment_pos t
        have hge : offset ≤ cppRoundUp offset t.alignment := cppRoundUp_ge _ _ ho halign
        have hb2 : offsetsBoundedBy acc (cppRoundUp offset t.alignment) :=
          boundedBy_mono hb hge
        have step := layoutAnonStruct_inv rest
          (acc.push n t (cppRoundUp offset t.alignment))
          (cppRoundUp offset t.alignment + t.size) hrest
          (chain_push hc hb2)
          (boundedBy_push (boundedBy_mono hb2 (by linarith)) (by linarith))
          (by linarith)
        simp only [layoutAnonStruct, hdup, Bool.false_eq_true, if_false]
        exact ⟨step.1, step.2.1, by linarith [step.2.2]⟩

theorem layoutAnonUnionPush_inv :
    ∀ (anonMs : MemberList) (acc : MemberList) (offset : Int),
      acc.offsets.Chain' (· ≤ ·) →
      offsetsBoundedBy acc offset →
      ((layoutAnonUnionPush acc offset anonMs).offsets.Chain' (· ≤ ·) ∧
       offsetsBoundedBy (layoutAnonUnionPush acc offset anonMs) offset)
  | .nil, acc, offset, hc, hb => ⟨hc, hb⟩
  | .cons n t moff rest, acc, offset, hc, hb => by
      by_cases hdup : acc.hasMember n = true
      · simpa only [layoutAnonUnionPush, hdup, if_true] using
          layoutAnonUnionPush_inv rest acc offset hc hb
      · replace hdup : acc.hasMember n = false := by
          cases h : acc.hasMember n
          · rfl
          · exact absurd h hdup
        have step := layoutAnonUnionPush_inv rest (acc.push n t offset) offset
          (chain_push hc hb)
          (boundedBy_push hb (le_refl _))
        simpa only [layoutAnonUnionPush, hdup, Bool.false_eq_true, if_false] using step

theorem layoutFields_inv :
    ∀ (fields : List FieldDecl) (acc : MemberList) (offset : Int),
      (∀ f ∈ fields, FieldSizesOk f) →
      acc.offsets.Chain' (· ≤ ·) →
      offsetsBoundedBy acc offset →
      0 ≤ offset →
      ((layoutFields acc offset fields).1.offsets.Chain' (· ≤ ·) ∧
       offsetsBoundedBy (layoutFields acc offset fields).1
         (layoutFields acc offset fields).2 ∧
       offset ≤ (layoutFields acc offset fields).2)
  | [], acc, offset, _, hc, hb, _ => ⟨hc, hb, le_refl _⟩
  | f :: rest, acc, offset, hall, hc, hb, ho => by
      have hf := hall f (List.mem_cons_self f rest)
      have hrest : ∀ g ∈ rest, FieldSizesOk g := fun g hg => hall g (List.mem_cons_of_mem f hg)
      obtain ⟨hfsz, hfstruct, hfunion⟩ := hf
      by_cases hanon : (f.name == "" &&
          (match f.type with
           | .structT _ _ _ => true
           | .unionT _ _ _ => true
           | _ => false)) = true
      · cases hft : f.type with
        | structT sn sms sc =>
            have hms : sms.sizesNonneg := hfstruct sn sms sc hft
            have inner := layoutAnonStruct_inv sms acc offset hms hc hb ho
            have step := layoutFields_inv rest
              (layoutAnonStruct acc offset sms).1
              (layoutAnonStruct acc offset sms).2 hrest
              inner.1 inner.2.1 (by linarith [inner.2.2])
            simp only [layoutFields, hft] at hanon ⊢
            simp only [hanon, if_true]
            exact ⟨step.1, step.2.1, by linarith [inner.2.2, step.2.2]⟩
        | unionT un ums uc =>
            have inner := layoutAnonUnionPush_inv ums acc offset hc hb
            have hmax : 0 ≤ MemberList.maxSize ums := MemberList.maxSize_nonneg ums
            have step := layoutFields_inv rest
              (layoutAnonUnionPush acc offset ums)
              (offset + MemberList.maxSize ums) hrest
              inner.1 (boundedBy_mono inner.2 (by linarith)) (by linarith)
            simp only [layoutFields, hft] at hanon ⊢
            simp only [hanon, if_true]
            exact ⟨step.1, step.2.1, by linarith [step.2.2]⟩
        | void =>
            rw [hft] at hanon
            simp at hanon
        | integer k u =>
            rw [hft] at hanon
            simp at hanon
        | float fk =>
            rw [hft] at hanon
            simp at hanon
        | pointer p =>
            rw [hft] at hanon
            simp at hanon
        | array e l =>
            rw [hft] at hanon
            simp at hanon
        | func r ps v =>
            rw [hft] at hanon
            simp at hanon
        | enumT en es =>
            rw [hft] at hanon
            simp at hanon
      · replace hanon : (f.name == "" &&
            (match f.type with
             | .structT _ _ _ => true
             | .unionT _ _ _ => true
             | _ => false)) = false := by
          cases h : (f.name == "" &&
              (match f.type with
               | .structT _ _ _ => true
               | .unionT _ _ _ => true
               | _ => false))
          · rfl
          · exact absurd h hanon
        by_cases hdup : acc.hasMember f.name = true
        · simpa only [layoutFields, hanon, Bool.false_eq_true, if_false, hdup, if_true] using
            layoutFields_inv rest acc offset hrest hc hb ho
        · replace hdup : acc.hasMember f.name = false := by
            cases h : acc.hasMember f.name
            · rfl
            · exact absurd h hdup
          have halign : 1 ≤ f.type.alignment := Ty.alignment_pos f.type
          have hge : offset ≤ cppRoundUp offset f.type.alignment :=
            cppRoundUp_ge _ _ ho halign
          have hb2 : offsetsBoundedBy acc (cppRoundUp offset f.type.alignment) :=
            boundedBy_mono hb hge
          have step := layoutFields_inv rest
            (acc.push f.name f.type (cppRoundUp offset f.type.alignment))
            (cppRoundUp offset f.type.alignment + f.type.size) hrest
            (chain_push hc hb2)
            (boundedBy_push (boundedBy_mono hb2 (by linarith [hfsz])) (by linarith [hfsz]))
            (by linarith [hfsz])
          simp only [layoutFields, hanon, Bool.false_eq_true, if_false, hdup]
          exact ⟨step.1, step.2.1, by linarith [hfsz, step.2.2]⟩

/-- C7: for every struct the analyzer lays out from fields whose types
have nonnegative sizes (true of all analyzer-built types), the member
offsets in declaration order are monotonically non-decreasing; the struct
alignment is the running maximum of the member alignments, and for a
nonempty layout the struct size is the end of the last member
(lastEnd = last.offset + last.type.size) rounded up to that alignment. -/
theorem claim_C7_struct_layout (tagName : String) (fields : List FieldDecl)
    (hall : ∀ f ∈ fields, FieldSizesOk f) :
    ((layoutFields .nil 0 fields).1.offsets.Chain' (· ≤ ·)) ∧
    Ty.alignment (analyzeStructLayout tagName fields) =
      MemberList.maxAlign (layoutFields .nil 0 fields).1 ∧
    (fields ≠ [] → (layoutFields .nil 0 fields).1.isEmptyM = false →
      Ty.size (analyzeStructLayout tagName fields) =
        cppRoundUp ((layoutFields .nil 0 fields).1.lastEnd)
          (MemberList.maxAlign (layoutFields .nil 0 fields).1)) := by
  refine ⟨?_, ?_, ?_⟩
  · exact (layoutFields_inv fields .nil 0 hall (by simp [MemberList.offsets])
      (by intro x hx; simp [MemberList.offsets] at hx) (le_refl 0)).1
  · simp [analyzeStructLayout, Ty.alignment]
  · intro hne hnem
    have hcomp : fields.isEmpty = false := by
      cases fields
      · exact absurd rfl hne
      · rfl
    simp [analyzeStructLayout, Ty.size, hcomp, hnem]

/-- C7 witness: the layout of struct { char a; int b; } instantiating the
layout theorem: offsets 0 and 4 are monotone and the size equation holds. -/
theorem claim_C7_struct_layout_witness :
    Ty.size (analyzeStructLayout "s" [⟨"a", Ty.integer .char false⟩, ⟨"b", makeInt⟩]) =
      cppRoundUp
        ((layoutFields .nil 0 [⟨"a", Ty.integer .char false⟩, ⟨"b", makeInt⟩]).1.lastEnd)
        (MemberList.maxAlign
          (layoutFields .nil 0 [⟨"a", Ty.integer .char false⟩, ⟨"b", makeInt⟩]).1) :=
  (claim_C7_struct_layout "s" [⟨"a", Ty.integer .char false⟩, ⟨"b", makeInt⟩]
    (by
      intro f hf
      fin_cases hf <;>
        exact ⟨by decide, fun n ms c h => Ty.noConfusion h,
          fun n ms c h => Ty.noConfusion h⟩)).2.2 (by decide) (by decide)

/-- C9: genCaseStmt records (caseDispatchValue, label) in the switch
frame, where the dispatch value is decoded only from an IntLiteral or a
CharLiteral node and is 0 for every other case-label expression (enum
constants, folded expressions such as 1+2, and so on); the jump table
emitted by genSwitchStmt then compares the switch condition against
exactly the recorded value - hence against 0 for every non-literal case
label. -/
theorem claim_C9_case_dispatch_literal_only
    (e : CExpr) (info : SwitchInfo) (cond : Operand)
    (caseLabel endLabel defaultLabel : String) (tempIdx : Nat) :
    (genCaseStmt info e caseLabel).1.cases =
      info.cases ++ [(caseDispatchValue e, caseLabel)] ∧
    (∀ v a b c, caseDispatchValue (.intLiteral v a b c) = v) ∧
    (∀ c, caseDispatchValue (.charLiteral c) = c) ∧
    ((∀ v a b c, e ≠ .intLiteral v a b c) → (∀ c, e ≠ .charLiteral c) →
      caseDispatchValue e = 0) ∧
    genSwitchTable ⟨cond, endLabel, defaultLabel, [(caseDispatchValue e, caseLabel)]⟩
        tempIdx =
      [mkQuad .Eq (Operand.temp ("t" ++ toString tempIdx) makeInt) cond
        (Operand.intConst (caseDispatchValue e)),
       mkQuad .JumpTrue (Operand.labelOp caseLabel)
        (Operand.temp ("t" ++ toString tempIdx) makeInt),
       mkQuad .Jump (Operand.labelOp defaultLabel)] := by
  refine ⟨rfl, fun v a b c => rfl, fun c => rfl, ?_, rfl⟩
  intro hint hchar
  cases e with
  | intLiteral v a b c => exact absurd rfl (hint v a b c)
  | charLiteral c => exact absurd rfl (hchar c)
  | floatLiteral bits isF => rfl
  | stringLiteral s => rfl
  | identExpr n => rfl
  | unaryExpr op x => rfl
  | binaryExpr op l r => rfl

/-- C9 witness: a case label that is a plain identifier (e.g. an enum
constant) records dispatch value 0. -/
theorem claim_C9_case_dispatch_witness : caseDispatchValue (.identExpr "RED") = 0 :=
  (claim_C9_case_dispatch_literal_only (.identExpr "RED")
    ⟨Operand.noneOp, "endswitch0", "endswitch0", []⟩ Operand.noneOp
    "case1" "endswitch0" "endswitch0" 2).2.2.2.1
    (fun v a b c h => CExpr.noConfusion h)
    (fun c h => CExpr.noConfusion h)

theorem asStructType_eq_some {o : Option Ty} {n : String} {ms : MemberList} {c : Bool}
    (h : asStructType o = some (n, ms, c)) : o = some (.structT n ms c) := by
  cases o with
  | none => simp [asStructType] at h
  | some t =>
      cases t <;> simp [asStructType] at h
      obtain ⟨h1, h2, h3⟩ := h
      subst h1; subst h2; subst h3
      rfl

theorem tagFind_append_self (m : TagMap) (sym : Symbol)
    (h : tagFind m sym.name = none) :
    tagFind (m ++ [(sym.name, sym)]) sym.name = some sym := by
  induction m with
  | nil => simp [tagFind]
  | cons e rest ih =>
      cases he : (e.1 == sym.name) with
      | true => simp [tagFind, List.find?, he] at h
      | false =>
          simp only [tagFind, List.find?, he] at h ⊢
          exact ih h

theorem tagFind_replace_self (m : TagMap) (n : String) (s : Symbol)
    (hpres : tagFind m n ≠ none) :
    tagFind (tagReplace m n s) n = some s := by
  induction m with
  | nil => simp [tagFind] at hpres
  | cons e rest ih =>
      cases he : (e.1 == n) with
      | true =>
          simp [tagReplace, he, tagFind, List.find?]
      | false =>
          simp only [tagFind, List.find?, he] at hpres
          simp only [tagReplace, he, Bool.false_eq_true, if_false, tagFind, List.find?]
          exact ih hpres

/-- C10: addTag succeeds exactly when the tag name is absent, or when the
new symbol is a StructTag whose type is a complete StructType while the
existing entry (itself a struct tag, by coherence of the map) holds an
incomplete StructType; on that replacement the entry becomes the new
symbol, and on every failure the map is unchanged - so a complete struct
entry is never overwritten, and a forward-declared union or enum tag is
never replaced by its later complete definition. -/
theorem claim_C10_addTag_success_iff (m : TagMap) (sym : Symbol)
    (hex : ∀ ex, tagFind m sym.name = some ex → TagSymbolCoherent ex) :
    ((addTag m sym).2 = true ↔
      tagFind m sym.name = none ∨
      (∃ ex n1 ms1 n2 ms2, tagFind m sym.name = some ex ∧
        sym.kind = .structTag ∧ ex.kind = .structTag ∧
        ex.type = some (.structT n1 ms1 false) ∧
        sym.type = some (.structT n2 ms2 true))) ∧
    ((addTag m sym).2 = true → tagFind (addTag m sym).1 sym.name = some sym) ∧
    ((addTag m sym).2 = false → (addTag m sym).1 = m) := by
  cases hfind : tagFind m sym.name with
  | none =>
      refine ⟨?_, ?_, ?_⟩
      · simp [addTag, hfind]
      · intro _
        simp only [addTag, hfind]
        exact tagFind_append_self m sym hfind
      · intro hfalse
        simp [addTag, hfind] at hfalse
  | some ex =>
      have hco := hex ex hfind
      cases hkind : (sym.kind == SymbolKind.structTag) with
      | false =>
          have hkne : sym.kind ≠ SymbolKind.structTag := by
            intro h
            rw [h] at hkind
            simp at hkind
          refine ⟨?_, ?_, fun _ => by simp [addTag, hfind, hkind]⟩
          · simp only [addTag, hfind, hkind, Bool.false_eq_true, if_false]
            constructor
            · intro h; exact absurd h (by simp)
            · rintro (h | ⟨ex2, n1, ms1, n2, ms2, hx, hk, _⟩)
              · exact Option.noConfusion h
              · exact absurd hk hkne
          · intro htrue
            simp only [addTag, hfind, hkind, Bool.false_eq_true, if_false] at htrue
      | true =>
          have hkeq : sym.kind = SymbolKind.structTag := by
            exact eq_of_beq hkind
          cases hcast1 : asStructType ex.type with
          | none =>
              refine ⟨?_, ?_, fun _ => by simp [addTag, hfind, hkind, hcast1]⟩
              · simp only [addTag, hfind, hkind, if_true, hcast1]
                constructor
                · intro h
                  cases hcast2 : asStructType sym.type <;>
                    simp [hcast2] at h
                · rintro (h | ⟨ex2, n1, ms1, n2, ms2, hx, hk, hek, het, hst⟩)
                  · exact Option.noConfusion h
                  · injection hx with hx
                    subst hx
                    rw [het] at hcast1
                    simp [asStructType] at hcast1
              · intro htrue
                cases hcast2 : asStructType sym.type <;>
                  simp [addTag, hfind, hkind, hcast1, hcast2] at htrue
          | some trip1 =>
              obtain ⟨en, ems, ec⟩ := trip1
              have hext : ex.type = some (.structT en ems ec) :=
                asStructType_eq_some hcast1
              have hekind : ex.kind = SymbolKind.structTag := by
                rw [TagSymbolCoherent] at hco
                exact hco.mp (by rw [hcast1]; rfl)
              cases hcast2 : asStructType sym.type with
              | none =>
                  refine ⟨?_, ?_, fun _ => by simp [addTag, hfind, hkind, hcast1, hcast2]⟩
                  · simp only [addTag, hfind, hkind, if_true, hcast1, hcast2]
                    constructor
                    · intro h; simp at h
                    · rintro (h | ⟨ex2, n1, ms1, n2, ms2, hx, hk, hek, het, hst⟩)
                      · exact Option.noConfusion h
                      · rw [hst] at hcast2
                        simp [asStructType] at hcast2
                  · intro htrue
                    simp [addTag, hfind, hkind, hcast1, hcast2] at htrue
              | some trip2 =>
                  obtain ⟨sn, sms, sc⟩ := trip2
                  have hsymt : sym.type = some (.structT sn sms sc) :=
                    asStructType_eq_some hcast2
                  cases hec : ec <;> cases hsc : sc
                  · -- existing incomplete, new incomplete: fails
                    subst hec; subst hsc
                    refine ⟨?_, ?_, fun _ => by simp [addTag, hfind, hkind, hcast1, hcast2]⟩
                    · simp only [addTag, hfind, hkind, if_true, hcast1, hcast2]
                      constructor
                      · intro h; simp at h
                      · rintro (h | ⟨ex2, n1, ms1, n2, ms2, hx, hk, hek, het, hst⟩)
                        · exact Option.noConfusion h
                        · rw [hst] at hsymt
                          injection hsymt with hsymt
                          exact Ty.noConfusion hsymt (fun _ _ hcc => Bool.noConfusion hcc)
                    · intro htrue
                      simp [addTag, hfind, hkind, hcast1, hcast2] at htrue
                  · -- existing incomplete, new complete: succeeds, entry replaced
                    subst hec; subst hsc
                    refine ⟨?_, ?_, ?_⟩
                    · simp only [addTag, hfind, hkind, if_true, hcast1, hcast2]
                      constructor
                      · intro _
                        exact Or.inr ⟨ex, en, ems, sn, sms, rfl, hkeq, hekind, hext, hsymt⟩
                      · intro _; simp
                    · intro _
                      have hrep : (addTag m sym).1 = tagReplace m sym.name sym := by
                        simp [addTag, hfind, hkind, hcast1, hcast2]
                      rw [hrep]
                      exact tagFind_replace_self m sym.name sym (by rw [hfind]; simp)
                    · intro hfalse
                      simp [addTag, hfind, hkind, hcast1, hcast2] at hfalse
                  · -- existing complete, new incomplete: fails
                    subst hec; subst hsc
                    refine ⟨?_, ?_, fun _ => by simp [addTag, hfind, hkind, hcast1, hcast2]⟩
                    · simp only [addTag, hfind, hkind, if_true, hcast1, hcast2]
                      constructor
                      · intro h; simp at h
                      · rintro (h | ⟨ex2, n1, ms1, n2, ms2, hx, hk, hek, het, hst⟩)
                        · exact Option.noConfusion h
                        · injection hx with hx
                          subst hx
                          rw [het] at hext
                          injection hext with hext
                          exact Ty.noConfusion hext (fun _ _ hcc => Bool.noConfusion hcc.symm)
                    · intro htrue
                      simp [addTag, hfind, hkind, hcast1, hcast2] at htrue
                  · -- existing complete, new complete: fails
                    subst hec; subst hsc
                    refine ⟨?_, ?_, fun _ => by simp [addTag, hfind, hkind, hcast1, hcast2]⟩
                    · simp only [addTag, hfind, hkind, if_true, hcast1, hcast2]
                      constructor
                      · intro h; simp at h
                      · rintro (h | ⟨ex2, n1, ms1, n2, ms2, hx, hk, hek, het, hst⟩)
                        · exact Option.noConfusion h
                        · injection hx with hx
                          subst hx
                          rw [het] at hext
                          injection hext with hext
                          exact Ty.noConfusion hext (fun _ _ hcc => Bool.noConfusion hcc.symm)
                    · intro htrue
                      simp [addTag, hfind, hkind, hcast1, hcast2] at htrue

/-- C10 witness: an incomplete struct S in the tag map is replaced by the
complete definition of struct S, and addTag reports success. -/
theorem claim_C10_addTag_witness :
    (addTag [("S", ⟨"S", .structTag, some (.structT "S" .nil false)⟩)]
        ⟨"S", .structTag, some (.structT "S" (.cons "x" makeInt 0 .nil) true)⟩).2 = true :=
  (claim_C10_addTag_success_iff
      [("S", ⟨"S", .structTag, some (.structT "S" .nil false)⟩)]
      ⟨"S", .structTag, some (.structT "S" (.cons "x" makeInt 0 .nil) true)⟩
      (fun ex h => by
        have hx : (⟨"S", .structTag, some (.structT "S" .nil false)⟩ : Symbol) = ex := by
          simpa [tagFind, List.find?] using h
        subst hx
        rw [TagSymbolCoherent]
        decide)).1.mpr
    (Or.inr ⟨⟨"S", .structTag, some (.structT "S" .nil false)⟩, "S", .nil,
      "S", .cons "x" makeInt 0 .nil, by simp [tagFind, List.find?], rfl, rfl, rfl, rfl⟩)

end Cdd
